import Mathlib

/-!
Verification development for the AI support-agent repository.

Shallow embedding of the core components:
* `src/memory/session_memory.py` — bounded session history with lazy expiry;
* `src/rag/embedded.py` — word-window chunker;
* `src/rag/vector_store.py` — FAISS-backed vector index (search / save / load);
* `src/llm/ollama_client.py` — HTTP client for the language-model backend;
* `src/app.py` — tool-call extraction and the response orchestrator.

Machine conventions: Python strings are modelled as `String` (or `List Char`
where character-level scanning is needed), `time.time()` as an explicit `Nat`
argument, floats as `ℚ`, and the HTTP backend as an explicit outcome oracle.
Python slice semantics (negative indices, clamping) are modelled exactly by
`sliceBound` / `pySlice` / `pySuffix`.
-/

/-- Normalisation of one Python slice bound `i` for a list of length `len`:
negative indices count from the end, and bounds are clamped into `[0, len]`. -/
def sliceBound (len : Nat) (i : Int) : Nat :=
  if i < 0 then ((len : Int) + i).toNat else min i.toNat len

/-- Python `l[a:b]` with full slice semantics. -/
def pySlice {α : Type} (l : List α) (a b : Int) : List α :=
  (l.take (sliceBound l.length b)).drop (sliceBound l.length a)

/-- Python `l[a:]` with full slice semantics. -/
def pySuffix {α : Type} (l : List α) (a : Int) : List α :=
  l.drop (sliceBound l.length a)

/-- Python `s.strip()` on a character list: whitespace removed at both ends. -/
def trimChars (s : List Char) : List Char :=
  ((s.dropWhile Char.isWhitespace).reverse.dropWhile Char.isWhitespace).reverse

/-- Characterwise worker for Python `text.split()`: `cur` is the (reversed)
word currently being read. -/
def splitWordsAux : List Char → List Char → List (List Char)
  | [], cur => if cur = [] then [] else [cur.reverse]
  | c :: cs, cur =>
    if c.isWhitespace then
      if cur = [] then splitWordsAux cs []
      else cur.reverse :: splitWordsAux cs []
    else splitWordsAux cs (c :: cur)

/-- Python `text.split()`: split on runs of whitespace, dropping empty pieces.
Each returned word is nonempty and contains no whitespace character. -/
def splitWords (l : List Char) : List (List Char) :=
  splitWordsAux l []

/-- Python `' '.join(words)`: words joined by single spaces. -/
def joinWords : List (List Char) → List Char
  | [] => []
  | [w] => w
  | w :: ws => w ++ ' ' :: joinWords ws

section SessionMemory

/-- `Message` from `src/memory/session_memory.py`: one chat message. -/
structure Message where
  role : String
  content : String
  timestamp : Nat
deriving DecidableEq, Repr

/-- `Session` from `src/memory/session_memory.py`. -/
structure Session where
  session_id : String
  messages : List Message
  created_at : Nat
  last_activity : Nat
deriving DecidableEq, Repr

/-- The list-level trim step of `Session.add_message`: append the new message,
then, if the cap `M` is exceeded, keep `[self.messages[0]] +
self.messages[-(M-1):]` with exact Python slice semantics (the source indexes
`messages[0]`, which on the always-nonempty post-append list equals `take 1`). -/
def addMsgList (M : Nat) (l : List Message) (m : Message) : List Message :=
  if (l ++ [m]).length > M then
    (l ++ [m]).take 1 ++ pySuffix (l ++ [m]) (1 - (M : Int))
  else l ++ [m]

/-- `Session.add_message`: append a freshly-stamped message, bump
`last_activity`, and re-apply the trim invariant. `M` is the configured
`MAX_SESSION_MESSAGES`; `now` models `time.time()`. -/
def Session.add_message (M : Nat) (s : Session) (role content : String)
    (now : Nat) : Session :=
  { s with
    messages := addMsgList M s.messages ⟨role, content, now⟩
    last_activity := now }

/-- `Session.get_recent_messages`: `self.messages[-limit:] if self.messages
else []`. -/
def Session.get_recent_messages (s : Session) (limit : Nat) : List Message :=
  if s.messages = [] then [] else pySuffix s.messages (-(limit : Int))

/-- `Session.is_expired`: `time.time() - self.last_activity > SESSION_TIMEOUT`.
`T` is the configured `SESSION_TIMEOUT`. -/
def Session.is_expired (T : Nat) (now : Nat) (s : Session) : Bool :=
  now - s.last_activity > T

/-- The session map `SessionManager.sessions` modelled extensionally. -/
def SessionMgr : Type := String → Option Session

/-- The empty `SessionManager` (`self.sessions = {}`). -/
def SessionMgr.empty : SessionMgr := fun _ => none

/-- `del self.sessions[session_id]` (`SessionManager.remove_session`). -/
def SessionMgr.remove (mgr : SessionMgr) (sid : String) : SessionMgr :=
  fun k => if k = sid then none else mgr k

/-- `self.sessions[session_id] = session`. -/
def SessionMgr.insert (mgr : SessionMgr) (sid : String) (s : Session) :
    SessionMgr :=
  fun k => if k = sid then some s else mgr k

/-- `SessionManager.get_session`: lazily expire, returning the updated map and
the result. -/
def SessionMgr.get_session (T now : Nat) (mgr : SessionMgr) (sid : String) :
    SessionMgr × Option Session :=
  match mgr sid with
  | none => (mgr, none)
  | some s =>
    if s.is_expired T now then (mgr.remove sid, none) else (mgr, some s)

/-- `SessionManager.create_session`: fresh session with empty history, both
timestamps set to `now`, stored in the map. -/
def SessionMgr.create_session (now : Nat) (mgr : SessionMgr) (sid : String) :
    SessionMgr × Session :=
  let s : Session := ⟨sid, [], now, now⟩
  (mgr.insert sid s, s)

/-- `SessionManager.get_or_create_session`. -/
def SessionMgr.get_or_create_session (T now : Nat) (mgr : SessionMgr)
    (sid : String) : SessionMgr × Session :=
  match mgr.get_session T now sid with
  | (mgr', some s) => (mgr', s)
  | (mgr', none) => mgr'.create_session now sid

end SessionMemory

section Chunker

/-- The RAG-relevant part of `src/config.py`. The source reads
`CHUNK_SIZE` / `CHUNK_OVERLAP` from the environment and performs **no**
validation whatsoever (in particular no `overlap < size` check). -/
structure Config where
  chunk_size : Nat
  chunk_overlap : Nat
deriving DecidableEq, Repr

/-- Startup configuration load: `src/config.py` assigns the parsed values
unconditionally; there is no guard and no failure path. -/
def loadConfig (chunk_size chunk_overlap : Nat) : Config :=
  ⟨chunk_size, chunk_overlap⟩

/-- One loop body's chunk emission: `chunk = ' '.join(chunk_words)`, then
`if chunk.strip(): chunks.append(chunk.strip())`. -/
def chunkAppend (chunks : List (List Char)) (chunk_words : List (List Char)) :
    List (List Char) :=
  if trimChars (joinWords chunk_words) ≠ [] then
    chunks ++ [trimChars (joinWords chunk_words)]
  else chunks

/-- The `while start < len(words)` loop of `DocumentEmbedder.chunk_text`
(`src/rag/embedded.py`), with an explicit fuel bound: `none` means the loop
performed `fuel` iterations without returning (in particular, a run that is
`none` for every fuel never terminates). Each iteration takes the window
`words[start : start + size]`, emits it via `chunkAppend`, breaks when
`end >= len(words)`, and otherwise advances the cursor to `end - overlap`.
The cursor `start` is an `Int` because Python lets `start = end - overlap`
go negative when `overlap > end`. -/
def chunkLoop (size overlap : Nat) (words : List (List Char)) :
    Nat → Int → List (List Char) → Option (List (List Char))
  | 0, _, _ => none
  | fuel + 1, start, chunks =>
    if start < (words.length : Int) then
      if (words.length : Int) ≤ start + (size : Int) then
        some (chunkAppend chunks (pySlice words start (start + (size : Int))))
      else
        chunkLoop size overlap words fuel (start + (size : Int) - (overlap : Int))
          (chunkAppend chunks (pySlice words start (start + (size : Int))))
    else some chunks

/-- `DocumentEmbedder.chunk_text`: empty text short-circuits to `[]`
(`if not text`), otherwise the word list is chunked by `chunkLoop`. The
canonical fuel `(words.length) + 1` is sufficient whenever the Python loop
terminates, so `none` exactly marks the diverging configurations. -/
def chunk_text (size overlap : Nat) (text : List Char) :
    Option (List (List Char)) :=
  if text = [] then some []
  else
    let words := splitWords text
    chunkLoop size overlap words (words.length + 1) 0 []

end Chunker

section VectorStoreModel

/-- A document chunk record (`src/rag/embedded.py`,
`load_documents_from_directory`): text, provenance, position. -/
structure Chunk where
  text : String
  source : String
  chunk_id : Nat
  total_chunks : Nat
deriving DecidableEq, Repr

/-- A search result: a copy of a chunk record with the derived
`similarity_score` added (`VectorStore.search`). Floats are modelled as `ℚ`. -/
structure SearchResult where
  chunk : Chunk
  similarity_score : ℚ
deriving DecidableEq, Repr

/-- `VectorStore` state (`src/rag/vector_store.py`): optional FAISS index
(modelled by its stored vectors), parallel chunk metadata, optional
dimension. -/
structure VectorStore where
  index : Option (List (List ℚ))
  documents : List Chunk
  dimension : Option Nat

/-- `VectorStore.__init__`. -/
def VectorStore.empty : VectorStore := ⟨none, [], none⟩

/-- Squared Euclidean distance, the metric of `faiss.IndexFlatL2`. -/
def sqdist (q v : List ℚ) : ℚ :=
  ((q.zip v).map (fun p => (p.1 - p.2) ^ 2)).sum

/-- Model of `faiss.IndexFlatL2.search`: the `n` nearest stored vectors by
ascending squared-L2 distance, as (distance, position) pairs. -/
def faissSearch (vecs : List (List ℚ)) (q : List ℚ) (n : Nat) :
    List (ℚ × Nat) :=
  ((vecs.mapIdx (fun i v => (sqdist q v, i))).mergeSort
    (fun a b => a.1 ≤ b.1)).take n

/-- `VectorStore.search` (`src/rag/vector_store.py`): empty result when the
index is unset or the document list is empty; the query is embedded via the
embedding backend `embed` (empty output means the backend failed); `k` is
clamped by `min(k, len(self.documents))`; each hit with a valid position is
returned as its chunk record plus `similarity_score = 1/(1+dist)`. -/
def VectorStore.search (embed : List String → List (List ℚ))
    (vs : VectorStore) (query : String) (k : Nat) : List SearchResult :=
  if vs.index = none ∨ vs.documents.length = 0 then []
  else if (embed [query]).length = 0 then []
  else
    let q := (embed [query]).headD []
    let pairs := faissSearch (vs.index.getD []) q (min k vs.documents.length)
    pairs.foldl
      (fun results p =>
        match vs.documents.get? p.2 with
        | some doc => results ++ [⟨doc, 1 / (1 + p.1)⟩]
        | none => results)
      []

/-- The two on-disk artifacts of `VectorStore.save`/`load`: the FAISS index
file at `store_path` and the pickled `{documents, dimension}` metadata file.
`none` models an absent file. -/
structure Disk where
  indexFile : Option (List (List ℚ))
  metadataFile : Option (List Chunk × Nat)

/-- `VectorStore.load`: returns `false` if the index file is absent; otherwise
reads the index, then reads the metadata **only if that file exists**
(`if metadata_path.exists():`), and returns `true` in both cases. Read errors
(the `except` branch) are not modelled: both reads succeed when the file is
present. -/
def VectorStore.load (vs : VectorStore) (d : Disk) : VectorStore × Bool :=
  match d.indexFile with
  | none => (vs, false)
  | some vecs =>
    let vs1 := { vs with index := some vecs }
    match d.metadataFile with
    | some (docs, dim) =>
      ({ vs1 with documents := docs, dimension := some dim }, true)
    | none => (vs1, true)

end VectorStoreModel

section OllamaClient

/-- Outcome of one `requests.post` call to the Ollama HTTP backend:
either the call raises (connectivity / timeout), or it returns a response
with a status code and a JSON parse outcome. The parsed body is reduced to
its optional `response` field; `Except.error` models `response.json()`
raising on malformed JSON. -/
inductive HttpOutcome where
  | exn : String → HttpOutcome
  | resp : Nat → Except String (Option String) → HttpOutcome

/-- `True` when the outcome makes the Python client enter its `except` branch:
the call raised, `raise_for_status()` raised (HTTP 4xx/5xx), or `.json()`
raised. -/
def HttpOutcome.isFailure : HttpOutcome → Bool
  | .exn _ => true
  | .resp status body =>
    (decide (400 ≤ status) && decide (status < 600)) ||
      (match body with | .error _ => true | .ok _ => false)

/-- Message of the `requests.HTTPError` raised by `raise_for_status()`
(modelled; the exact library text is irrelevant to the client's contract). -/
def httpStatusError (status : Nat) : String :=
  "HTTP status " ++ toString status

/-- Python `s.strip()` on a `String`. -/
def pyStrip (s : String) : String := String.mk (trimChars s.data)

/-- `OllamaClient.generate` (`src/llm/ollama_client.py`): every exception from
the HTTP call, the status check or the JSON parse is caught by the
all-enclosing `try`, producing `"Error: Unable to generate response - ..."`;
on success the optional `response` field defaults to `""`. -/
def OllamaClient.generate (outcome : HttpOutcome) (prompt : String)
    (system_prompt : Option String) : String :=
  match outcome with
  | .exn e => "Error: Unable to generate response - " ++ e
  | .resp status body =>
    if 400 ≤ status ∧ status < 600 then
      "Error: Unable to generate response - " ++ httpStatusError status
    else
      match body with
      | .error e => "Error: Unable to generate response - " ++ e
      | .ok field => field.getD ""

/-- The prompt `OllamaClient.chat` builds from its message list before calling
the generate endpoint. Note the source handles only the `system` and
`assistant` roles; `user` messages are silently dropped. -/
def chatPrompt (messages : List (String × String)) : String :=
  messages.foldl
    (fun acc m =>
      if m.1 = "system" then acc ++ "System: " ++ m.2 ++ "\n\n"
      else if m.1 = "assistant" then acc ++ "Assistant: " ++ m.2 ++ "\n\n"
      else acc)
    ""

/-- `OllamaClient.chat`: builds a prompt from the messages, posts it, and
— exactly like `generate` — catches every exception in the all-enclosing
`try`, returning `"Error: Unable to chat - ..."` instead of raising. The
backend oracle sees the posted prompt. -/
def OllamaClient.chat (backend : String → HttpOutcome)
    (messages : List (String × String)) : String :=
  let payloadPrompt := pyStrip (chatPrompt messages)
  match backend payloadPrompt with
  | .exn e => "Error: Unable to chat - " ++ e
  | .resp status body =>
    if 400 ≤ status ∧ status < 600 then
      "Error: Unable to chat - " ++ httpStatusError status
    else
      match body with
      | .error e => "Error: Unable to chat - " ++ e
      | .ok field => field.getD ""

end OllamaClient

section ToolCalls

/-- The double-quote character (written via its code point to keep it out of
string-literal syntax). -/
def dq : Char := Char.ofNat 34

/-- The single-quote character. -/
def squote : Char := Char.ofNat 39

/-- The regex character class `["\']`. -/
def isQuote (c : Char) : Bool := c = dq || c = squote

/-- Split a character list at the first occurrence of `t`:
`some (before, after)` with `l = before ++ t :: after`, or `none` when `t`
does not occur. This is the effect of the lazy group in `name\((.*?)\)`. -/
def splitFirst (t : Char) (l : List Char) : Option (List Char × List Char) :=
  match l with
  | [] => none
  | c :: cs =>
    if c = t then some ([], cs)
    else (splitFirst t cs).map (fun p => (c :: p.1, p.2))

theorem splitFirst_eq_append {t : Char} {l : List Char}
    {p : List Char × List Char} (h : splitFirst t l = some p) :
    l = p.1 ++ t :: p.2 := by
  induction l generalizing p with
  | nil => simp [splitFirst] at h
  | cons c cs ih =>
    by_cases hc : c = t
    · simp only [splitFirst, if_pos hc] at h
      cases h
      simpa using hc
    · simp only [splitFirst, if_neg hc, Option.map_eq_some'] at h
      obtain ⟨q, hq, rfl⟩ := h
      simpa using ih hq

theorem splitFirst_some_length {t : Char} {l : List Char}
    {p : List Char × List Char} (h : splitFirst t l = some p) :
    p.2.length < l.length := by
  have := splitFirst_eq_append h
  subst this
  simp
  omega

/-- Fuelled worker for the tool-call regex scan; the fuel strictly exceeds the
remaining text length at every call (each step consumes at least one
character), so the `0` case is unreachable from `scanCalls`. -/
def scanCallsAux (pat : List Char) :
    Nat → List Char → Nat → List (Nat × List Char)
  | 0, _, _ => []
  | fuel + 1, text, off =>
    match text with
    | [] => []
    | c :: rest =>
      if (pat ++ ['(']) <+: (c :: rest) then
        match splitFirst ')' ((c :: rest).drop (pat.length + 1)) with
        | some p =>
          (off, p.1) ::
            scanCallsAux pat fuel p.2 (off + pat.length + 1 + p.1.length + 1)
        | none => []
      else scanCallsAux pat fuel rest (off + 1)

/-- `re.findall(pat ++ "\((.*?)\)", text, re.DOTALL)` with match offsets:
scan left to right; at each position where the literal `pat ++ "("` matches,
lazily capture up to the first `")"` and resume after it (non-overlapping
matches). When the opening bracket is never closed, neither this occurrence
nor any later one can complete a match, so the scan ends. Each result is
`(absolute offset of the match, captured argument text)`. -/
def scanCalls (pat : List Char) (text : List Char) (off : Nat) :
    List (Nat × List Char) :=
  scanCallsAux pat (text.length + 1) text off

/-- One attempt of the argument regex `key=["\']([^"\']+)["\']` anchored at
the start of `s`: the literal `key=`, an opening quote, a nonempty run of
non-quote characters, and a closing quote. -/
def tryKeyVal (keyEq : List Char) (s : List Char) : Option (List Char) :=
  if keyEq <+: s then
    match s.drop keyEq.length with
    | [] => none
    | q :: s2 =>
      if isQuote q then
        let run := s2.takeWhile (fun d => ¬ isQuote d)
        if run ≠ [] ∧ s2.drop run.length ≠ [] then some run else none
      else none
  else none

/-- `re.search` for the argument regex: first position at which `tryKeyVal`
succeeds. -/
def searchKeyVal (keyEq : List Char) (s : List Char) : Option (List Char) :=
  match s with
  | [] => none
  | c :: rest =>
    match tryKeyVal keyEq (c :: rest) with
    | some v => some v
    | none => searchKeyVal keyEq rest

/-- A parsed tool call (`extract_tool_calls` in `src/app.py`): tool name and
the extracted argument map, in extraction order. -/
structure ToolCall where
  tool : String
  args : List (String × String)
deriving DecidableEq, Repr

/-- The argument keys `extract_tool_calls` knows about, in source order. -/
def argKeys : List String :=
  ["description", "priority", "category", "order_id", "query"]

/-- The per-match argument parser of `extract_tool_calls`: nothing is parsed
when the capture is blank (`if match.strip():`); otherwise each known key is
pulled out independently (`'key=' in match` then `re.search(...)`); unknown
keys are ignored and missing keys are absent. -/
def parseArgs (cap : List Char) : List (String × String) :=
  if trimChars cap = [] then []
  else
    argKeys.foldl
      (fun args key =>
        if (key.data ++ ['=']) <:+: cap then
          match searchKeyVal (key.data ++ ['=']) cap with
          | some v => args ++ [(key, String.mk v)]
          | none => args
        else args)
      []

/-- The three tool patterns of `extract_tool_calls`, in source order (the
tool name is recovered by `pattern.split('\\(')[0]`). -/
def toolNames : List String :=
  ["create_ticket", "check_order_status", "search_knowledge_base"]

/-- `extract_tool_calls` (`src/app.py`): for each pattern **in the fixed
pattern order**, find all its matches across the whole reply and append them
— so results are grouped by tool, not interleaved by text position. -/
def extract_tool_calls (response : List Char) : List ToolCall :=
  toolNames.foldl
    (fun acc pat =>
      acc ++ (scanCalls pat.data response 0).map (fun pr => ⟨pat, parseArgs pr.2⟩))
    []

end ToolCalls

section Orchestrator

/-- `SYSTEM_PROMPT` from `src/llm/prompts.py`. -/
def SYSTEM_PROMPT : String :=
  "You are a helpful AI support agent for a local business. Your role is to:\n\n1. **Provide accurate information** based on the knowledge base and context provided\n2. **Assist with common support tasks** like checking order status, creating tickets, and answering FAQs\n3. **Be friendly and professional** while maintaining a helpful tone\n4. **Ask clarifying questions** when the user\x27s request is unclear\n5. **Use available tools** when appropriate to help users\n6. **Admit limitations** when you don\x27t have enough information\n\nGuidelines:\n- Always base your responses on the retrieved context when available\n- If you cannot find relevant information, suggest contacting human support\n- Keep responses concise but comprehensive\n- Use markdown formatting for better readability\n- Be proactive in offering related help\n\nAvailable tools:\n- create_ticket: Create support tickets for issues\n- check_order_status: Check status of customer orders\n- search_knowledge_base: Search through documentation\n\nWhen using tools, explain what you\x27re doing and provide clear results."

/-- `RAG_PROMPT_TEMPLATE.format(context=..., question=...)`. -/
def RAG_PROMPT_TEMPLATE (context question : String) : String :=
  "Based on the following context information, please answer the user\x27s question.\n\nContext:\n"
    ++ context ++ "\n\nUser Question: " ++ question ++
    "\n\nInstructions:\n1. Use the provided context to answer the question\n2. If the context doesn\x27t contain the answer, say so clearly\n3. Provide specific, actionable information when possible\n4. Include relevant details from the context\n5. If you need more information, ask clarifying questions\n\nAnswer:"

/-- `CHAT_WITH_CONTEXT_TEMPLATE.format(history=..., context=..., message=...)`. -/
def CHAT_WITH_CONTEXT_TEMPLATE (history context message : String) : String :=
  "You are a helpful AI support agent. Use the conversation history and retrieved context to provide the best possible response.\n\nConversation History:\n"
    ++ history ++ "\n\nRetrieved Context:\n" ++ context ++
    "\n\nCurrent User Message: " ++ message ++
    "\n\nInstructions:\n1. Consider the conversation history for context\n2. Use the retrieved context to inform your response\n3. Maintain a consistent, helpful tone\n4. Reference previous parts of the conversation when relevant\n5. Use available tools if they would help resolve the user\x27s issue\n\nResponse:"

/-- The greeting canned response of `generate_fallback_response`. -/
def fallbackGreeting : String :=
  "Hello! I\x27m your AI support assistant. How can I help you today?"

/-- The capability-inquiry canned response. -/
def fallbackHelp : String :=
  "I can help you with:\n        \n📋 **Support Tasks:**\n- Create support tickets\n- Check order status\n- Answer questions about products and services\n\n📚 **Knowledge Base:**\nI have access to documentation about our products, services, and support procedures.\n\n💡 **Try asking:**\n- \"What products do you offer?\"\n- \"Check order ORD-001\"\n- \"Create a ticket for billing issue\"\n- \"How do I reset my password?\"\n\nNote: I\x27m currently running in fallback mode. For full AI responses, please ensure Ollama is running properly."

/-- The order-related canned response when an order id is present. -/
def fallbackOrderWithId : String :=
  "I can help check your order status! However, I need to connect to order system to get real-time information. Please try again when the AI service is fully available."

/-- The order-related canned response without an order id. -/
def fallbackOrderNoId : String :=
  "To check your order status, please provide your order ID (e.g., ORD-001)."

/-- The ticket-related canned response. -/
def fallbackTicket : String :=
  "I can help create a support ticket for you! Please describe your issue and I\x27ll create a ticket. However, I need the AI service to be fully available to process this properly."

/-- The product-inquiry canned response. -/
def fallbackProduct : String :=
  "Based on our knowledge base, we offer various products and services:\n\n🖥️ **Products:**\n- Laptops and desktops\n- Smartphones and tablets\n- Accessories and peripherals\n\n🛠️ **Services:**\n- Technical support\n- Order tracking\n- Billing assistance\n- Account management\n\nFor specific details about any product or service, please ask when the AI service is fully available."

/-- The generic default canned response (an f-string embedding the user
message). -/
def fallbackGeneric (user_message : String) : String :=
  "I understand you\x27re asking about: \"" ++ user_message ++
    "\"\n\nHowever, I\x27m currently running in limited mode because the AI service (Ollama) is not responding properly. \n\n**What you can do:**\n1. Try your question again in a few minutes\n2. Check if Ollama is running: `ollama list`\n3. Restart Ollama if needed: `ollama serve`\n\nFor urgent assistance, you can contact our support team directly at support@example.com or call 1-800-SUPPORT."

/-- Python `word in user_message_lower`. -/
def containsSub (lower : List Char) (w : String) : Bool :=
  decide (w.data <:+: lower)

/-- `generate_fallback_response` (`src/app.py`): keyword-family rules over the
lower-cased user message, tried in source order; `context` is accepted and
ignored, as in the source. -/
def generate_fallback_response (user_message : String) (context : String) :
    String :=
  let lower := user_message.data.map Char.toLower
  if ["hello", "hi", "hey", "greetings"].any (containsSub lower) then
    fallbackGreeting
  else if ["help", "what can you do", "capabilities"].any (containsSub lower) then
    fallbackHelp
  else if ["order", "status", "track"].any (containsSub lower) then
    if containsSub lower "ord-" then fallbackOrderWithId else fallbackOrderNoId
  else if ["ticket", "support", "issue", "problem"].any (containsSub lower) then
    fallbackTicket
  else if ["product", "service", "offer"].any (containsSub lower) then
    fallbackProduct
  else fallbackGeneric user_message

/-- The collaborators and configuration `generate_response` depends on:
config values, the clock, the embedding backend, the language-model HTTP
backend (indexed by call number within the turn, and fed the posted prompt),
and the tool dispatcher `execute_tool_call` (external collaborators). -/
structure GenEnv where
  max_session_messages : Nat
  session_timeout : Nat
  max_retrieved_docs : Nat
  now : Nat
  embed : List String → List (List ℚ)
  backend : Nat → String → HttpOutcome
  execTool : ToolCall → String

/-- `generate_response` (`src/app.py`): the per-turn orchestrator. The
`try/except` around each `ollama_client.chat` call cannot take its `except`
branch — `OllamaClient.chat` catches every exception internally and returns
an error string — so the `generate_fallback_response` calls in the source are
unreachable and do not appear here. The outer `except` (technical-difficulties
message) guards session/retrieval faults, none of which exist in this model. -/
def generate_response (env : GenEnv) (vs : VectorStore) (mgr : SessionMgr)
    (sid user_message : String) : SessionMgr × String :=
  let step1 := SessionMgr.get_or_create_session env.session_timeout env.now mgr sid
  let s1 := step1.2.add_message env.max_session_messages "user" user_message env.now
  let mgr2 := step1.1.insert sid s1
  let context_docs := VectorStore.search env.embed vs user_message env.max_retrieved_docs
  let context := String.intercalate "\n\n" (context_docs.map (fun d => d.chunk.text))
  let recent_messages := s1.get_recent_messages 10
  let history := recent_messages.dropLast.foldl
    (fun acc msg => acc ++ msg.role ++ ": " ++ msg.content ++ "\n") ""
  let prompt :=
    if context ≠ "" ∧ history ≠ "" then
      CHAT_WITH_CONTEXT_TEMPLATE (pyStrip history) context user_message
    else if context ≠ "" then RAG_PROMPT_TEMPLATE context user_message
    else user_message
  let messages := [("system", SYSTEM_PROMPT), ("user", prompt)]
  let response := OllamaClient.chat (env.backend 0) messages
  let tool_calls := extract_tool_calls response.data
  let response2 :=
    if tool_calls ≠ [] then
      let tool_results := tool_calls.map env.execTool
      if tool_results ≠ [] then
        let tool_context := String.intercalate "\n\n" tool_results
        let final_prompt := prompt ++ "\n\nTool Results:\n" ++ tool_context ++
          "\n\nPlease provide a helpful response based on these tool results."
        OllamaClient.chat (env.backend 1) [("system", SYSTEM_PROMPT), ("user", final_prompt)]
      else response
    else response
  let s2 := s1.add_message env.max_session_messages "assistant" response2 env.now
  (mgr2.insert sid s2, response2)

end Orchestrator


section TrimProofs

theorem addMsgList_small {M : Nat} {l : List Message} {m : Message}
    (h : l.length + 1 ≤ M) : addMsgList M l m = l ++ [m] := by
  unfold addMsgList
  rw [if_neg (by simp only [List.length_append, List.length_cons,
    List.length_nil]; omega)]

theorem addMsgList_big {M : Nat} (hM : 2 ≤ M) {l : List Message}
    {m : Message} (h : l.length = M) :
    addMsgList M l m = (l ++ [m]).take 1 ++ (l ++ [m]).drop 2 := by
  have h2 : sliceBound (l ++ [m]).length (1 - (M : Int)) = 2 := by
    unfold sliceBound
    rw [if_pos (by omega : (1 - (M : Int)) < 0)]
    simp only [List.length_append, List.length_cons, List.length_nil, h]
    omega
  unfold addMsgList pySuffix
  rw [if_pos (by simp only [List.length_append, List.length_cons,
    List.length_nil, h]; omega), h2]

/-- Folding `add_message`'s trim step from an empty history keeps the first
message and the `M-1` most recent ones, for caps `M ≥ 2`. -/
theorem foldl_addMsgList_eq {M : Nat} (hM : 2 ≤ M) (l : List Message) :
    List.foldl (addMsgList M) [] l =
      if l.length ≤ M then l
      else l.take 1 ++ l.drop (l.length - (M - 1)) := by
  induction l using List.reverseRecOn with
  | nil => simp
  | append_singleton l m ih =>
    rw [List.foldl_append, List.foldl_cons, List.foldl_nil, ih]
    rcases Nat.lt_or_ge l.length M with h1 | h1
    · rw [if_pos (by omega), addMsgList_small (by omega),
        if_pos (by simp only [List.length_append, List.length_cons,
          List.length_nil]; omega)]
    · have hnil : l ≠ [] := by
        intro hn; subst hn; simp only [List.length_nil] at h1; omega
      obtain ⟨a, tl, rfl⟩ := List.exists_cons_of_ne_nil hnil
      have hlc : (a :: tl).length = tl.length + 1 := List.length_cons a tl
      rcases Nat.eq_or_lt_of_le h1 with h2 | h2
      · -- exactly at the cap: the first trim fires
        rw [if_pos (le_of_eq h2.symm), addMsgList_big hM h2.symm,
          if_neg (by simp only [List.length_append, List.length_cons,
            List.length_nil]; omega)]
        have harith : ((a :: tl) ++ [m]).length - (M - 1) = 2 := by
          simp only [List.length_append, List.length_cons, List.length_nil]
          omega
        rw [harith]
      · -- beyond the cap: the folded value is already trimmed to length M
        rw [if_neg (by omega)]
        have hDlen : ((a :: tl).drop ((a :: tl).length - (M - 1))).length
            = M - 1 := by
          simp only [List.length_drop]
          omega
        have hTlen : ((a :: tl).take 1 ++
            (a :: tl).drop ((a :: tl).length - (M - 1))).length = M := by
          simp only [List.length_append, List.length_take, hDlen]
          omega
        rw [addMsgList_big hM hTlen,
          if_neg (by simp only [List.length_append, List.length_take,
            List.length_drop, List.length_cons, List.length_nil]; omega)]
        have e0 : (a :: tl).take 1 = [a] := by simp
        rw [e0]
        have eL : (([a] ++ (a :: tl).drop ((a :: tl).length - (M - 1))) ++ [m])
            = a :: ((a :: tl).drop ((a :: tl).length - (M - 1)) ++ [m]) := by
          simp
        have eR : ((a :: tl) ++ [m]) = a :: (tl ++ [m]) := by simp
        rw [eL, eR]
        have hlen2 : (a :: (tl ++ [m])).length - (M - 1)
            = ((a :: tl).length - (M - 1)) + 1 := by
          simp only [List.length_cons, List.length_append, List.length_nil]
          omega
        rw [hlen2]
        have tk : ∀ x : List Message, (a :: x).take 1 = [a] := by
          intro x; simp
        rw [tk, tk]
        congr 1
        rw [List.drop_succ_cons, List.drop_succ_cons,
          List.drop_append_of_le_length (by omega : 1 ≤
            ((a :: tl).drop ((a :: tl).length - (M - 1))).length),
          List.drop_drop]
        have e2 : (tl ++ [m]).drop ((a :: tl).length - (M - 1))
            = tl.drop ((a :: tl).length - (M - 1)) ++ [m] := by
          refine List.drop_append_of_le_length ?_
          omega
        rw [List.drop_succ_cons, e2]

end TrimProofs

/-- Appending a batch of `(role, content, timestamp)` messages to a session
through `Session.add_message`. -/
def sessionAfter (M : Nat) (s : Session)
    (items : List (String × String × Nat)) : Session :=
  items.foldl (fun acc it => acc.add_message M it.1 it.2.1 it.2.2) s

theorem sessionAfter_messages (M : Nat)
    (items : List (String × String × Nat)) :
    ∀ s : Session, (sessionAfter M s items).messages =
      List.foldl (addMsgList M) s.messages
        (items.map (fun it => Message.mk it.1 it.2.1 it.2.2)) := by
  induction items with
  | nil => intro s; rfl
  | cons it rest ih =>
    intro s
    show (sessionAfter M (s.add_message M it.1 it.2.1 it.2.2) rest).messages = _
    rw [ih]
    rfl

/-- C2 counterexample: with cap `M = 1` the claim fails. Appending two
messages to a fresh session leaves a history of length **3**, not `M = 1`,
because the Python trim `[self.messages[0]] + self.messages[-(M-1):]`
evaluates `messages[-0:]` as the whole list. -/
theorem claim_C2_counterexample :
    (sessionAfter 1 ⟨"s", [], 0, 0⟩
      [("user", "a", 0), ("user", "b", 1)]).messages.length = 3 ∧
    ¬ (sessionAfter 1 ⟨"s", [], 0, 0⟩
      [("user", "a", 0), ("user", "b", 1)]).messages.length = 1 := by
  constructor <;> decide

/-- C2 (amended to caps `M ≥ 2`): after appending `N > M` messages to a fresh
session, the history has length exactly `M`, its first element is the very
first appended message, and its last `M-1` elements are the last `M-1`
appended messages in order. -/
theorem claim_C2_trim_invariant (M : Nat) (hM : 2 ≤ M) (s : Session)
    (hs : s.messages = []) (items : List (String × String × Nat))
    (hN : M < items.length) :
    (sessionAfter M s items).messages.length = M ∧
    (sessionAfter M s items).messages.head? =
      (items.map (fun it => Message.mk it.1 it.2.1 it.2.2)).head? ∧
    (sessionAfter M s items).messages.drop 1 =
      (items.map (fun it => Message.mk it.1 it.2.1 it.2.2)).drop
        (items.length - (M - 1)) := by
  have hmsg := sessionAfter_messages M items s
  rw [hs, foldl_addMsgList_eq hM] at hmsg
  have hlen : (items.map (fun it => Message.mk it.1 it.2.1 it.2.2)).length
      = items.length := by simp
  rw [if_neg (by omega)] at hmsg
  refine ⟨?_, ?_, ?_⟩
  · rw [hmsg]
    simp only [List.length_append, List.length_take, List.length_drop, hlen]
    omega
  · rw [hmsg]
    have hne : (items.map (fun it => Message.mk it.1 it.2.1 it.2.2)) ≠ [] := by
      intro h
      rw [h] at hlen
      simp only [List.length_nil] at hlen
      omega
    obtain ⟨a, tl, e⟩ := List.exists_cons_of_ne_nil hne
    rw [e]
    simp
  · rw [hmsg, hlen]
    have h1 : 1 ≤ ((items.map (fun it =>
        Message.mk it.1 it.2.1 it.2.2)).take 1).length := by
      simp only [List.length_take, hlen]
      omega
    have h2 : ((items.map (fun it =>
        Message.mk it.1 it.2.1 it.2.2)).take 1).drop 1 = [] := by
      refine List.drop_eq_nil_of_le ?_
      simp only [List.length_take]
      omega
    rw [List.drop_append_of_le_length h1, h2, List.nil_append]


/-- Witness for the amended C2 theorem at cap `M = 2` and three appends. -/
theorem claim_C2_trim_invariant_witness :
    (sessionAfter 2 ⟨"s", [], 0, 0⟩
      [("user", "a", 0), ("user", "b", 1), ("user", "c", 2)]).messages.length = 2 ∧
    (sessionAfter 2 ⟨"s", [], 0, 0⟩
      [("user", "a", 0), ("user", "b", 1), ("user", "c", 2)]).messages.head? =
      (([("user", "a", 0), ("user", "b", 1), ("user", "c", 2)] :
        List (String × String × Nat)).map
          (fun it => Message.mk it.1 it.2.1 it.2.2)).head? ∧
    (sessionAfter 2 ⟨"s", [], 0, 0⟩
      [("user", "a", 0), ("user", "b", 1), ("user", "c", 2)]).messages.drop 1 =
      (([("user", "a", 0), ("user", "b", 1), ("user", "c", 2)] :
        List (String × String × Nat)).map
          (fun it => Message.mk it.1 it.2.1 it.2.2)).drop
        (([("user", "a", 0), ("user", "b", 1), ("user", "c", 2)] :
          List (String × String × Nat)).length - (2 - 1)) :=
  claim_C2_trim_invariant 2 (by norm_num) ⟨"s", [], 0, 0⟩ rfl
    [("user", "a", 0), ("user", "b", 1), ("user", "c", 2)] (by norm_num)

/-- C6: a session whose `last_activity` is older than the timeout is deleted
and reported absent by the next `get_session`, and `get_or_create_session`
then transparently returns a fresh session with the same id, empty history,
and both timestamps set to `now`, storing it in the map. -/
theorem claim_C6_expiry (T now : Nat) (mgr : SessionMgr) (sid : String)
    (s : Session) (hlook : mgr sid = some s)
    (hexp : s.last_activity + T < now) :
    (SessionMgr.get_session T now mgr sid).2 = none ∧
    (SessionMgr.get_session T now mgr sid).1 sid = none ∧
    (SessionMgr.get_or_create_session T now mgr sid).2 = ⟨sid, [], now, now⟩ ∧
    (SessionMgr.get_or_create_session T now mgr sid).1 sid =
      some ⟨sid, [], now, now⟩ := by
  have hb : s.is_expired T now = true := by
    unfold Session.is_expired
    simp only [gt_iff_lt, decide_eq_true_eq]
    omega
  have e1 : SessionMgr.get_session T now mgr sid
      = (SessionMgr.remove mgr sid, none) := by
    unfold SessionMgr.get_session
    rw [hlook]
    simp [hb]
  have e2 : SessionMgr.get_or_create_session T now mgr sid
      = ((SessionMgr.remove mgr sid).insert sid ⟨sid, [], now, now⟩,
        ⟨sid, [], now, now⟩) := by
    unfold SessionMgr.get_or_create_session
    rw [e1]
    rfl
  refine ⟨by rw [e1], ?_, by rw [e2], ?_⟩
  · rw [e1]
    unfold SessionMgr.remove
    simp
  · rw [e2]
    unfold SessionMgr.insert
    simp

/-- Witness for C6 at a concrete expired session. -/
theorem claim_C6_expiry_witness :
    (SessionMgr.get_session 10 100
      (SessionMgr.insert SessionMgr.empty "s1" ⟨"s1", [], 0, 0⟩) "s1").2 = none ∧
    (SessionMgr.get_session 10 100
      (SessionMgr.insert SessionMgr.empty "s1" ⟨"s1", [], 0, 0⟩) "s1").1 "s1" = none ∧
    (SessionMgr.get_or_create_session 10 100
      (SessionMgr.insert SessionMgr.empty "s1" ⟨"s1", [], 0, 0⟩) "s1").2 =
      ⟨"s1", [], 100, 100⟩ ∧
    (SessionMgr.get_or_create_session 10 100
      (SessionMgr.insert SessionMgr.empty "s1" ⟨"s1", [], 0, 0⟩) "s1").1 "s1" =
      some ⟨"s1", [], 100, 100⟩ :=
  claim_C6_expiry 10 100 _ "s1" ⟨"s1", [], 0, 0⟩ (by decide) (by norm_num)

section ChunkerProofs

/-- With `overlap >= size`, once the cursor is at or below zero it never
advances past zero, so on a text with more than `size` words the loop never
returns, whatever the fuel. -/
theorem chunkLoop_none_of_overlap_ge {size overlap : Nat}
    (h : size ≤ overlap) {words : List (List Char)}
    (hw : size < words.length) :
    ∀ (fuel : Nat) (start : Int) (chunks : List (List Char)), start ≤ 0 →
      chunkLoop size overlap words fuel start chunks = none := by
  intro fuel
  induction fuel with
  | zero => intro start chunks _; rfl
  | succ n ih =>
    intro start chunks hstart
    unfold chunkLoop
    rw [if_pos (by omega : start < (words.length : Int)),
      if_neg (by omega : ¬ ((words.length : Int) ≤ start + (size : Int)))]
    exact ih _ _ (by omega)

/-- C4: the claimed startup guard does not exist. `src/config.py` accepts any
`CHUNK_OVERLAP >= CHUNK_SIZE` configuration unchanged (there is no
validation), and under such a configuration `chunk_text` never terminates on
any text with more than `size` whitespace-separated words: the loop returns
`none` for every fuel bound. -/
theorem claim_C4_no_guard_and_divergence (size overlap : Nat)
    (h : size ≤ overlap) :
    loadConfig size overlap = ⟨size, overlap⟩ ∧
    ∀ text : List Char, size < (splitWords text).length →
      (∀ (fuel : Nat) (chunks : List (List Char)),
        chunkLoop size overlap (splitWords text) fuel 0 chunks = none) ∧
      chunk_text size overlap text = none := by
  refine ⟨rfl, fun text hlen => ⟨?_, ?_⟩⟩
  · intro fuel chunks
    exact chunkLoop_none_of_overlap_ge h hlen fuel 0 chunks le_rfl
  · have hne : text ≠ [] := by
      intro he
      rw [he] at hlen
      simp [splitWords, splitWordsAux] at hlen
    unfold chunk_text
    rw [if_neg hne]
    exact chunkLoop_none_of_overlap_ge h hlen _ 0 [] le_rfl

/-- Witness for C4 at `size = overlap = 2` on a three-word text. -/
theorem claim_C4_no_guard_and_divergence_witness :
    loadConfig 2 2 = ⟨2, 2⟩ ∧
    chunkLoop 2 2 (splitWords ("a b c".data)) 50 0 [] = none ∧
    chunk_text 2 2 ("a b c".data) = none := by
  have h := claim_C4_no_guard_and_divergence 2 2 (by norm_num)
  have h2 := h.2 ("a b c".data) (by decide)
  exact ⟨h.1, h2.1 50 [], h2.2⟩

/-- C3: `VectorStore.load` does **not** fail when the metadata artifact is
missing while the index artifact is present: it reports success and leaves
the store with an index of three vectors but zero chunk records. -/
theorem claim_C3_load_inconsistency :
    (VectorStore.load VectorStore.empty
      ⟨some [[0], [1], [2]], none⟩).2 = true ∧
    (VectorStore.load VectorStore.empty
      ⟨some [[0], [1], [2]], none⟩).1.documents.length = 0 ∧
    ((VectorStore.load VectorStore.empty
      ⟨some [[0], [1], [2]], none⟩).1.index.map List.length) = some 3 :=
  ⟨rfl, rfl, rfl⟩

end ChunkerProofs

section ChunkCoverage

theorem mem_dropWhile_of_mem {p : Char → Bool} {c : Char} :
    ∀ {l : List Char}, c ∈ l → p c = false → c ∈ l.dropWhile p := by
  intro l
  induction l with
  | nil => intro h; simp at h
  | cons a tl ih =>
    intro hmem hpc
    rw [List.dropWhile_cons]
    by_cases hpa : p a = true
    · rw [if_pos hpa]
      rcases List.mem_cons.mp hmem with rfl | htl
      · rw [hpc] at hpa; cases hpa
      · exact ih htl hpc
    · rw [if_neg hpa]
      exact hmem

theorem trimChars_ne_nil {s : List Char} {c : Char} (hc : c ∈ s)
    (hw : c.isWhitespace = false) : trimChars s ≠ [] := by
  unfold trimChars
  have h1 : c ∈ s.dropWhile Char.isWhitespace := mem_dropWhile_of_mem hc hw
  have h2 : c ∈ (s.dropWhile Char.isWhitespace).reverse :=
    List.mem_reverse.mpr h1
  have h3 : c ∈ (s.dropWhile Char.isWhitespace).reverse.dropWhile
      Char.isWhitespace := mem_dropWhile_of_mem h2 hw
  intro he
  rw [List.reverse_eq_nil_iff] at he
  rw [he] at h3
  cases h3

theorem mem_joinWords {c : Char} {w : List Char} :
    ∀ {ws : List (List Char)}, w ∈ ws → c ∈ w → c ∈ joinWords ws := by
  intro ws
  induction ws with
  | nil => intro h; simp at h
  | cons v rest ih =>
    intro hmem hc
    match rest, hmem with
    | [], hmem =>
      have : w = v := by simpa using hmem
      subst this
      simpa [joinWords] using hc
    | r :: rs, hmem =>
      show c ∈ v ++ ' ' :: joinWords (r :: rs)
      rcases List.mem_cons.mp hmem with rfl | htl
      · exact List.mem_append_left _ hc
      · exact List.mem_append_right _ (List.mem_cons_of_mem _ (ih htl hc))

theorem splitWordsAux_words :
    ∀ (l cur : List Char), (∀ c ∈ cur, c.isWhitespace = false) →
      ∀ w ∈ splitWordsAux l cur,
        w ≠ [] ∧ ∀ c ∈ w, c.isWhitespace = false := by
  intro l
  induction l with
  | nil =>
    intro cur hcur w hw
    unfold splitWordsAux at hw
    by_cases hc : cur = []
    · rw [if_pos hc] at hw
      cases hw
    · rw [if_neg hc] at hw
      have : w = cur.reverse := by simpa using hw
      subst this
      refine ⟨by simpa using hc, ?_⟩
      intro c hcm
      exact hcur c (List.mem_reverse.mp hcm)
  | cons a tl ih =>
    intro cur hcur w hw
    unfold splitWordsAux at hw
    by_cases hws : a.isWhitespace = true
    · rw [if_pos hws] at hw
      by_cases hc : cur = []
      · rw [if_pos hc] at hw
        exact ih [] (by intro c h; cases h) w hw
      · rw [if_neg hc] at hw
        rcases List.mem_cons.mp hw with rfl | htl
        · refine ⟨by simpa using hc, ?_⟩
          intro c hcm
          exact hcur c (List.mem_reverse.mp hcm)
        · exact ih [] (by intro c h; cases h) w htl
    · rw [if_neg hws] at hw
      refine ih (a :: cur) ?_ w hw
      intro c hcm
      rcases List.mem_cons.mp hcm with rfl | hcc
      · simpa using hws
      · exact hcur c hcc

/-- Every word produced by `splitWords` is nonempty and whitespace-free. -/
theorem splitWords_words {l : List Char} :
    ∀ w ∈ splitWords l, w ≠ [] ∧ ∀ c ∈ w, c.isWhitespace = false :=
  splitWordsAux_words l [] (by intro c h; cases h)

/-- Whitespace-only input splits into no words. -/
theorem splitWords_eq_nil_of_all_ws {l : List Char}
    (h : ∀ c ∈ l, c.isWhitespace = true) : splitWords l = [] := by
  unfold splitWords
  induction l with
  | nil => rfl
  | cons a tl ih =>
    unfold splitWordsAux
    rw [if_pos (h a (List.mem_cons_self a tl)), if_pos rfl]
    exact ih (fun c hc => h c (List.mem_cons_of_mem a hc))

end ChunkCoverage

section ChunkTermination

/-- With `overlap < size`, the loop returns within `fuel + 1` iterations
whenever `len(words) ≤ start + fuel`. -/
theorem chunkLoop_isSome {size overlap : Nat} (hov : overlap < size)
    (words : List (List Char)) :
    ∀ (fuel : Nat) (start : Int) (chunks : List (List Char)),
      (words.length : Int) ≤ start + fuel →
      (chunkLoop size overlap words (fuel + 1) start chunks).isSome := by
  intro fuel
  induction fuel with
  | zero =>
    intro start chunks hb
    unfold chunkLoop
    rw [if_neg (by omega : ¬ (start < (words.length : Int)))]
    rfl
  | succ n ih =>
    intro start chunks hb
    unfold chunkLoop
    by_cases h1 : start < (words.length : Int)
    · rw [if_pos h1]
      by_cases h2 : (words.length : Int) ≤ start + (size : Int)
      · rw [if_pos h2]; rfl
      · rw [if_neg h2]
        refine ih _ _ ?_
        push_cast at hb ⊢
        omega
    · rw [if_neg h1]; rfl

/-- The loop result is stable under extra fuel. -/
theorem chunkLoop_fuel_succ {size overlap : Nat}
    {words : List (List Char)} :
    ∀ {fuel : Nat} {start : Int} {chunks cs : List (List Char)},
      chunkLoop size overlap words fuel start chunks = some cs →
      chunkLoop size overlap words (fuel + 1) start chunks = some cs := by
  intro fuel
  induction fuel with
  | zero => intro start chunks cs h; cases h
  | succ n ih =>
    intro start chunks cs h
    unfold chunkLoop at h ⊢
    by_cases h1 : start < (words.length : Int)
    · rw [if_pos h1] at h ⊢
      by_cases h2 : (words.length : Int) ≤ start + (size : Int)
      · rwa [if_pos h2] at h ⊢
      · rw [if_neg h2] at h ⊢
        exact ih h
    · rwa [if_neg h1] at h ⊢

theorem chunkLoop_fuel_le {size overlap : Nat} {words : List (List Char)}
    {fuel fuel' : Nat} {start : Int} {chunks cs : List (List Char)}
    (hle : fuel ≤ fuel')
    (h : chunkLoop size overlap words fuel start chunks = some cs) :
    chunkLoop size overlap words fuel' start chunks = some cs := by
  induction fuel', hle using Nat.le_induction with
  | base => exact h
  | succ n hn ih => exact chunkLoop_fuel_succ ih

/-- For in-range nonnegative cursors the Python window slice is take-drop. -/
theorem pySlice_nat (l : List (List Char)) (a b : Nat) (ha : a ≤ l.length) :
    pySlice l (a : Int) (b : Int) = (l.take b).drop a := by
  unfold pySlice sliceBound
  rw [if_neg (by omega : ¬ ((b : Int) < 0)),
    if_neg (by omega : ¬ ((a : Int) < 0))]
  simp only [Int.toNat_natCast]
  rw [min_eq_left ha]
  congr 1
  refine List.take_eq_take.mpr ?_
  omega

end ChunkTermination

section ChunkCoverageMain

/-- Main loop invariant for `overlap < size`: the accumulated chunks are a
prefix of the result, and every word from the cursor onward ends up inside
some emitted chunk. -/
theorem chunkLoop_covers {size overlap : Nat} (hov : overlap < size)
    {words : List (List Char)}
    (hwords : ∀ w ∈ words, w ≠ [] ∧ ∀ c ∈ w, c.isWhitespace = false) :
    ∀ (fuel s : Nat) (chunks cs : List (List Char)),
      chunkLoop size overlap words fuel (s : Int) chunks = some cs →
      chunks <+: cs ∧
      ∀ i, s ≤ i → i < words.length → ∀ w, words.get? i = some w →
        ∃ l r, trimChars (joinWords (l ++ w :: r)) ∈ cs := by
  intro fuel
  induction fuel with
  | zero => intro s chunks cs h; cases h
  | succ n ih =>
    intro s chunks cs h
    unfold chunkLoop at h
    by_cases h1 : (s : Int) < (words.length : Int)
    · rw [if_pos h1] at h
      have hslen : s < words.length := by exact_mod_cast h1
      have hwin_eq : pySlice words (s : Int) ((s : Int) + (size : Int))
          = (words.take (s + size)).drop s := by
        rw [show (s : Int) + (size : Int) = ((s + size : Nat) : Int) by
          push_cast; ring]
        exact pySlice_nat words s (s + size) (le_of_lt hslen)
      obtain ⟨w0, hw0⟩ : ∃ w0, words.get? s = some w0 :=
        ⟨words.get ⟨s, hslen⟩, List.get?_eq_get hslen⟩
      have hmemwin : ∀ i w, s ≤ i → i < s + size → words.get? i = some w →
          w ∈ (words.take (s + size)).drop s := by
        intro i w hsi hisz hw
        have ht : (words.take (s + size)).get? i = some w := by
          rw [List.get?_take hisz]
          exact hw
        have hd : ((words.take (s + size)).drop s).get? (i - s) = some w := by
          rw [List.get?_drop, show s + (i - s) = i from by omega]
          exact ht
        exact List.get?_mem hd
      have hw0win : w0 ∈ (words.take (s + size)).drop s :=
        hmemwin s w0 le_rfl (by omega) hw0
      have hw0p := hwords w0 (List.get?_mem hw0)
      obtain ⟨c0, hc0⟩ := List.exists_mem_of_ne_nil w0 hw0p.1
      have hstr : trimChars (joinWords ((words.take (s + size)).drop s))
          ≠ [] :=
        trimChars_ne_nil (mem_joinWords hw0win hc0) (hw0p.2 c0 hc0)
      have happend : chunkAppend chunks
            (pySlice words (s : Int) ((s : Int) + (size : Int)))
          = chunks ++ [trimChars (joinWords ((words.take (s + size)).drop s))] := by
        rw [hwin_eq]
        unfold chunkAppend
        rw [if_pos hstr]
      by_cases h2 : (words.length : Int) ≤ (s : Int) + (size : Int)
      · rw [if_pos h2, happend] at h
        injection h with h
        subst h
        refine ⟨List.prefix_append _ _, ?_⟩
        intro i hsi hilen w hw
        have hiwin : w ∈ (words.take (s + size)).drop s :=
          hmemwin i w hsi (by omega) hw
        obtain ⟨l, r, hlr⟩ := List.append_of_mem hiwin
        refine ⟨l, r, ?_⟩
        rw [← hlr]
        exact List.mem_append_right _ (List.mem_singleton_self _)
      · rw [if_neg h2, happend] at h
        rw [show (s : Int) + (size : Int) - (overlap : Int)
            = ((s + size - overlap : Nat) : Int) by push_cast; omega] at h
        obtain ⟨hpre, hcov⟩ := ih (s + size - overlap) _ cs h
        have hpre' : chunks <+: cs :=
          (List.prefix_append chunks _).trans hpre
        refine ⟨hpre', ?_⟩
        intro i hsi hilen w hw
        by_cases hcase : i < s + size
        · have hiwin : w ∈ (words.take (s + size)).drop s :=
            hmemwin i w hsi hcase hw
          obtain ⟨l, r, hlr⟩ := List.append_of_mem hiwin
          refine ⟨l, r, ?_⟩
          rw [← hlr]
          refine hpre.subset ?_
          exact List.mem_append_right _ (List.mem_singleton_self _)
        · exact hcov i (by omega) hilen w hw
    · rw [if_neg h1] at h
      injection h with h
      subst h
      refine ⟨List.prefix_refl _, ?_⟩
      intro i hsi hilen w hw
      exact absurd hilen (by omega)

end ChunkCoverageMain

/-- C5: with `overlap < size`, chunking terminates with a unique result
(independent of any sufficient fuel bound), every whitespace-separated word
of the input occurs inside one of the produced chunks, and empty or
whitespace-only input yields no chunks. -/
theorem claim_C5_chunking (size overlap : Nat) (hov : overlap < size)
    (text : List Char) :
    ∃ cs, chunk_text size overlap text = some cs ∧
      (∀ fuel, (splitWords text).length < fuel →
        chunkLoop size overlap (splitWords text) fuel 0 [] = some cs) ∧
      (∀ w ∈ splitWords text, ∃ l r,
        trimChars (joinWords (l ++ w :: r)) ∈ cs) ∧
      ((∀ c ∈ text, c.isWhitespace = true) → cs = []) := by
  by_cases hempty : text = []
  · refine ⟨[], by rw [hempty]; rfl, ?_, ?_, fun _ => rfl⟩
    · intro fuel hf
      rw [hempty]
      obtain ⟨m, rfl⟩ := Nat.exists_eq_succ_of_ne_zero
        (by
          rw [hempty] at hf
          omega : fuel ≠ 0)
      show chunkLoop size overlap [] (m + 1) 0 [] = some []
      unfold chunkLoop
      rw [if_neg (by simp)]
    · intro w hw
      rw [hempty] at hw
      simp [splitWords, splitWordsAux] at hw
  · have hsome := chunkLoop_isSome hov (splitWords text)
      (splitWords text).length 0 [] (by push_cast; omega)
    obtain ⟨cs, hcs⟩ := Option.isSome_iff_exists.mp hsome
    have hcs0 : chunkLoop size overlap (splitWords text)
        ((splitWords text).length + 1) (((0 : Nat) : Int)) [] = some cs := by
      exact_mod_cast hcs
    refine ⟨cs, ?_, ?_, ?_, ?_⟩
    · unfold chunk_text
      rw [if_neg hempty]
      exact hcs
    · intro fuel hf
      exact chunkLoop_fuel_le (by omega) hcs
    · intro w hw
      obtain ⟨i, hi⟩ := List.get?_of_mem hw
      have hilen : i < (splitWords text).length :=
        (List.get?_eq_some.mp hi).1
      have hcov := (chunkLoop_covers hov
        (fun w hw => splitWords_words w hw)
        ((splitWords text).length + 1) 0 [] cs hcs0).2
      exact hcov i (Nat.zero_le i) hilen w hi
    · intro hws
      have hw0 : splitWords text = [] := splitWords_eq_nil_of_all_ws hws
      rw [hw0] at hcs
      unfold chunkLoop at hcs
      rw [if_neg (by simp)] at hcs
      injection hcs with h
      exact h.symm

/-- Witness for C5 at `size = 3`, `overlap = 1`, text `"hello world"`. -/
theorem claim_C5_chunking_witness :
    ∃ cs, chunk_text 3 1 "hello world".data = some cs ∧
      (∀ fuel, (splitWords "hello world".data).length < fuel →
        chunkLoop 3 1 (splitWords "hello world".data) fuel 0 [] = some cs) ∧
      (∀ w ∈ splitWords "hello world".data, ∃ l r,
        trimChars (joinWords (l ++ w :: r)) ∈ cs) ∧
      ((∀ c ∈ "hello world".data, c.isWhitespace = true) → cs = []) :=
  claim_C5_chunking 3 1 (by norm_num) "hello world".data

section SearchProofs

/-- The result-building fold of `VectorStore.search` adds at most one result
per (distance, index) pair. -/
theorem search_foldl_length (docs : List Chunk) :
    ∀ (pairs : List (ℚ × Nat)) (init : List SearchResult),
      (pairs.foldl
        (fun results p =>
          match docs.get? p.2 with
          | some doc => results ++ [⟨doc, 1 / (1 + p.1)⟩]
          | none => results)
        init).length ≤ init.length + pairs.length := by
  intro pairs
  induction pairs with
  | nil => intro init; simp
  | cons p rest ih =>
    intro init
    rw [List.foldl_cons]
    cases hd : docs.get? p.2 with
    | none =>
      simp only [hd]
      have := ih init
      simp only [List.length_cons]
      omega
    | some doc =>
      simp only [hd]
      have := ih (init ++ [⟨doc, 1 / (1 + p.1)⟩])
      simp only [List.length_append, List.length_cons, List.length_nil] at this ⊢
      omega

/-- Every result the fold produces beyond its initial accumulator comes from
one of the pairs, copying that chunk and deriving `1/(1+dist)`. -/
theorem search_foldl_mem (docs : List Chunk) :
    ∀ (pairs : List (ℚ × Nat)) (init : List SearchResult)
      (r : SearchResult),
      r ∈ pairs.foldl
        (fun results p =>
          match docs.get? p.2 with
          | some doc => results ++ [⟨doc, 1 / (1 + p.1)⟩]
          | none => results)
        init →
      r ∈ init ∨ ∃ p ∈ pairs, docs.get? p.2 = some r.chunk ∧
        r.similarity_score = 1 / (1 + p.1) := by
  intro pairs
  induction pairs with
  | nil => intro init r hr; exact Or.inl hr
  | cons p rest ih =>
    intro init r hr
    rw [List.foldl_cons] at hr
    cases hd : docs.get? p.2 with
    | none =>
      rw [hd] at hr
      rcases ih _ r hr with h | ⟨p', hp', h1, h2⟩
      · exact Or.inl h
      · exact Or.inr ⟨p', List.mem_cons_of_mem _ hp', h1, h2⟩
    | some doc =>
      rw [hd] at hr
      rcases ih _ r hr with h | ⟨p', hp', h1, h2⟩
      · rcases List.mem_append.mp h with h' | h'
        · exact Or.inl h'
        · have : r = ⟨doc, 1 / (1 + p.1)⟩ := by simpa using h'
          subst this
          exact Or.inr ⟨p, List.mem_cons_self _ _, hd, rfl⟩
      · exact Or.inr ⟨p', List.mem_cons_of_mem _ hp', h1, h2⟩

/-- Each pair returned by the FAISS model is the squared-L2 distance of one
stored vector, tagged with that vector's position. -/
theorem faissSearch_mem {vecs : List (List ℚ)} {q : List ℚ} {n : Nat}
    {p : ℚ × Nat} (hp : p ∈ faissSearch vecs q n) :
    ∃ v, vecs.get? p.2 = some v ∧ p.1 = sqdist q v := by
  unfold faissSearch at hp
  have h1 := List.mem_of_mem_take hp
  rw [List.mem_mergeSort, List.mem_mapIdx] at h1
  obtain ⟨i, hi, he⟩ := h1
  refine ⟨vecs[i], ?_, ?_⟩
  · rw [← he]
    rw [List.get?_eq_getElem?]
    exact List.getElem?_eq_getElem hi
  · rw [← he]

theorem sqdist_nonneg (q v : List ℚ) : 0 ≤ sqdist q v := by
  unfold sqdist
  refine List.sum_nonneg ?_
  intro x hx
  obtain ⟨p, _, rfl⟩ := List.mem_map.mp hx
  exact sq_nonneg _

/-- C8: `search` returns at most `min k (chunk count)` results and returns
the empty sequence whenever the index is unset or the document list is
empty. -/
theorem claim_C8_search_clamp (embed : List String → List (List ℚ))
    (vs : VectorStore) (query : String) (k : Nat) :
    (vs.index = none → vs.search embed query k = []) ∧
    (vs.documents = [] → vs.search embed query k = []) ∧
    (vs.search embed query k).length ≤ min k vs.documents.length := by
  refine ⟨?_, ?_, ?_⟩
  · intro h
    unfold VectorStore.search
    rw [if_pos (Or.inl h)]
  · intro h
    unfold VectorStore.search
    rw [if_pos (Or.inr (by rw [h]; rfl))]
  · unfold VectorStore.search
    by_cases h0 : vs.index = none ∨ vs.documents.length = 0
    · rw [if_pos h0]
      simp
    · rw [if_neg h0]
      by_cases h1 : (embed [query]).length = 0
      · rw [if_pos h1]
        simp
      · rw [if_neg h1]
        dsimp only
        have hlen := search_foldl_length vs.documents
          (faissSearch (vs.index.getD []) ((embed [query]).headD [])
            (min k vs.documents.length)) []
        have htake : (faissSearch (vs.index.getD [])
            ((embed [query]).headD []) (min k vs.documents.length)).length
            ≤ min k vs.documents.length := by
          unfold faissSearch
          exact List.length_take_le _ _
        simp only [List.length_nil, Nat.zero_add] at hlen
        omega

/-- Witness for C8 on an uninitialized store. -/
theorem claim_C8_search_clamp_witness :
    VectorStore.search (fun _ => [[0]]) VectorStore.empty "q" 5 = [] ∧
    (VectorStore.search (fun _ => [[0]]) VectorStore.empty "q" 5).length
      ≤ min 5 VectorStore.empty.documents.length :=
  ⟨(claim_C8_search_clamp (fun _ => [[0]]) VectorStore.empty "q" 5).1 rfl,
    (claim_C8_search_clamp (fun _ => [[0]]) VectorStore.empty "q" 5).2.2⟩

end SearchProofs

/-- C9: every result's `similarity_score` is `1/(1+d)` for the squared-L2
distance `d` between the query embedding and the stored vector at the
result's chunk position; hence the score lies in `(0, 1]`, equals `1`
exactly when the distance is zero, and `1/(1+d)` is strictly decreasing in
the distance. -/
theorem claim_C9_similarity_score (embed : List String → List (List ℚ))
    (vs : VectorStore) (query : String) (k : Nat) :
    (∀ r ∈ vs.search embed query k,
      ∃ i v, (vs.index.getD []).get? i = some v ∧
        vs.documents.get? i = some r.chunk ∧
        r.similarity_score = 1 / (1 + sqdist ((embed [query]).headD []) v) ∧
        0 < r.similarity_score ∧ r.similarity_score ≤ 1 ∧
        (r.similarity_score = 1 ↔ sqdist ((embed [query]).headD []) v = 0)) ∧
    (∀ d₁ d₂ : ℚ, 0 ≤ d₁ → d₁ < d₂ → 1 / (1 + d₂) < 1 / (1 + d₁)) := by
  constructor
  · intro r hr
    unfold VectorStore.search at hr
    by_cases h0 : vs.index = none ∨ vs.documents.length = 0
    · rw [if_pos h0] at hr
      cases hr
    · rw [if_neg h0] at hr
      by_cases h1 : (embed [query]).length = 0
      · rw [if_pos h1] at hr
        cases hr
      · rw [if_neg h1] at hr
        dsimp only at hr
        rcases search_foldl_mem vs.documents _ [] r hr with hinit | ⟨p, hp, hchunk, hscore⟩
        · cases hinit
        · obtain ⟨v, hv, hd⟩ := faissSearch_mem hp
          have hnn : 0 ≤ sqdist ((embed [query]).headD []) v :=
            sqdist_nonneg _ _
          have hpos : (0 : ℚ) < 1 + sqdist ((embed [query]).headD []) v := by
            linarith
          refine ⟨p.2, v, hv, hchunk, by rw [hscore, hd], ?_, ?_, ?_⟩
          · rw [hscore, hd]
            positivity
          · rw [hscore, hd]
            rw [div_le_one hpos]
            linarith
          · rw [hscore, hd]
            rw [div_eq_one_iff_eq (ne_of_gt hpos)]
            constructor
            · intro he
              linarith
            · intro he
              rw [he]
              norm_num
  · intro d₁ d₂ h1 h2
    exact one_div_lt_one_div_of_lt (by linarith) (by linarith)

/-- Witness for C9 on a concrete two-vector store. -/
theorem claim_C9_similarity_score_witness :
    (∀ r ∈ VectorStore.search (fun _ => [[0]])
        ⟨some [[0], [3]],
          [⟨"a", "s", 0, 2⟩, ⟨"b", "s", 1, 2⟩], some 1⟩ "q" 2,
      ∃ i v, ((⟨some [[0], [3]],
          [⟨"a", "s", 0, 2⟩, ⟨"b", "s", 1, 2⟩], some 1⟩ :
            VectorStore).index.getD []).get? i = some v ∧
        (⟨some [[0], [3]],
          [⟨"a", "s", 0, 2⟩, ⟨"b", "s", 1, 2⟩], some 1⟩ :
            VectorStore).documents.get? i = some r.chunk ∧
        r.similarity_score =
          1 / (1 + sqdist (((fun (_ : List String) =>
            [[(0 : ℚ)]]) ["q"]).headD []) v) ∧
        0 < r.similarity_score ∧ r.similarity_score ≤ 1 ∧
        (r.similarity_score = 1 ↔
          sqdist (((fun (_ : List String) => [[(0 : ℚ)]]) ["q"]).headD [])
            v = 0)) ∧
    (∀ d₁ d₂ : ℚ, 0 ≤ d₁ → d₁ < d₂ → 1 / (1 + d₂) < 1 / (1 + d₁)) :=
  claim_C9_similarity_score (fun _ => [[0]])
    ⟨some [[0], [3]], [⟨"a", "s", 0, 2⟩, ⟨"b", "s", 1, 2⟩], some 1⟩ "q" 2

section ClientProofs

theorem errString_has_err_start {mid : String} (tail : String)
    (hmid : "Error:".data <+: mid.data) :
    "Error:".data <+: (mid ++ tail).data := by
  rw [String.data_append]
  exact hmid.trans (List.prefix_append _ _)

/-- C10: `OllamaClient.generate` and `OllamaClient.chat` are total at their
call boundary: whenever the HTTP backend outcome is a failure (raised
exception, 4xx/5xx status, or malformed JSON), the caught exception is turned
into a plain string starting with `"Error:"` — nothing propagates. -/
theorem claim_C10_client_totality (o : HttpOutcome) (prompt : String)
    (system_prompt : Option String) (backend : String → HttpOutcome)
    (messages : List (String × String)) (ho : o.isFailure = true)
    (hb : (backend (pyStrip (chatPrompt messages))).isFailure = true) :
    "Error:".data <+: (OllamaClient.generate o prompt system_prompt).data ∧
    "Error:".data <+: (OllamaClient.chat backend messages).data := by
  constructor
  · unfold OllamaClient.generate
    cases o with
    | exn e =>
      exact errString_has_err_start e (by decide)
    | resp status body =>
      unfold HttpOutcome.isFailure at ho
      dsimp only at ho ⊢
      by_cases hs : 400 ≤ status ∧ status < 600
      · rw [if_pos hs]
        exact errString_has_err_start _ (by decide)
      · rw [if_neg hs]
        cases body with
        | error e => exact errString_has_err_start e (by decide)
        | ok f =>
          exfalso
          simp only [Bool.or_eq_true, Bool.and_eq_true, decide_eq_true_eq] at ho
          rcases ho with ⟨h1, h2⟩ | h3
          · exact hs ⟨h1, h2⟩
          · cases h3
  · unfold OllamaClient.chat
    dsimp only
    cases hbk : backend (pyStrip (chatPrompt messages)) with
    | exn e =>
      dsimp only
      exact errString_has_err_start e (by decide)
    | resp status body =>
      rw [hbk] at hb
      unfold HttpOutcome.isFailure at hb
      dsimp only at hb ⊢
      by_cases hs : 400 ≤ status ∧ status < 600
      · rw [if_pos hs]
        exact errString_has_err_start _ (by decide)
      · rw [if_neg hs]
        cases body with
        | error e => exact errString_has_err_start e (by decide)
        | ok f =>
          exfalso
          simp only [Bool.or_eq_true, Bool.and_eq_true, decide_eq_true_eq] at hb
          rcases hb with ⟨h1, h2⟩ | h3
          · exact hs ⟨h1, h2⟩
          · cases h3

/-- Witness for C10: a raising backend and an HTTP-500 backend. -/
theorem claim_C10_client_totality_witness :
    "Error:".data <+:
      (OllamaClient.generate (.exn "connection refused") "p" none).data ∧
    "Error:".data <+:
      (OllamaClient.chat (fun _ => .resp 500 (.ok (some "x")))
        [("system", "S")]).data :=
  ⟨(claim_C10_client_totality (.exn "connection refused") "p" none
      (fun _ => .resp 500 (.ok (some "x"))) [("system", "S")]
      rfl (by decide)).1,
    (claim_C10_client_totality (.exn "connection refused") "p" none
      (fun _ => .resp 500 (.ok (some "x"))) [("system", "S")]
      rfl (by decide)).2⟩

end ClientProofs

section ExtractionProofs

theorem scanCallsAux_offset_ge (pat : List Char) :
    ∀ (fuel : Nat) (text : List Char) (off : Nat),
      ∀ p ∈ scanCallsAux pat fuel text off, off ≤ p.1 := by
  intro fuel
  induction fuel with
  | zero => intro text off p hp; cases hp
  | succ n ih =>
    intro text off p hp
    unfold scanCallsAux at hp
    cases text with
    | nil => cases hp
    | cons c rest =>
      dsimp only at hp
      by_cases hpre : (pat ++ ['(']) <+: (c :: rest)
      · rw [if_pos hpre] at hp
        cases hsp : splitFirst ')' ((c :: rest).drop (pat.length + 1)) with
        | none => rw [hsp] at hp; cases hp
        | some q =>
          rw [hsp] at hp
          rcases List.mem_cons.mp hp with rfl | htl
          · exact le_rfl
          · have := ih q.2 (off + pat.length + 1 + q.1.length + 1) p htl
            omega
      · rw [if_neg hpre] at hp
        have := ih rest (off + 1) p hp
        omega

/-- Matches are reported in strictly increasing position order: the scan is
left-to-right. -/
theorem scanCallsAux_pairwise (pat : List Char) :
    ∀ (fuel : Nat) (text : List Char) (off : Nat),
      (scanCallsAux pat fuel text off).Pairwise (fun a b => a.1 < b.1) := by
  intro fuel
  induction fuel with
  | zero => intro text off; exact List.Pairwise.nil
  | succ n ih =>
    intro text off
    unfold scanCallsAux
    cases text with
    | nil => exact List.Pairwise.nil
    | cons c rest =>
      dsimp only
      by_cases hpre : (pat ++ ['(']) <+: (c :: rest)
      · rw [if_pos hpre]
        cases hsp : splitFirst ')' ((c :: rest).drop (pat.length + 1)) with
        | none => exact List.Pairwise.nil
        | some q =>
          refine List.Pairwise.cons ?_ (ih q.2 _)
          intro p hp
          have := scanCallsAux_offset_ge pat n q.2
            (off + pat.length + 1 + q.1.length + 1) p hp
          omega
      · rw [if_neg hpre]
        exact ih rest (off + 1)

/-- Every reported match is real: at the reported absolute position the text
contains the pattern name, an opening bracket, the captured text and the
closing bracket. -/
theorem scanCallsAux_sound (pat : List Char) :
    ∀ (fuel : Nat) (text : List Char) (off : Nat),
      ∀ p ∈ scanCallsAux pat fuel text off,
        ∃ k, p.1 = off + k ∧
          (pat ++ '(' :: p.2 ++ [')']) <+: text.drop k := by
  intro fuel
  induction fuel with
  | zero => intro text off p hp; cases hp
  | succ n ih =>
    intro text off p hp
    unfold scanCallsAux at hp
    cases text with
    | nil => cases hp
    | cons c rest =>
      dsimp only at hp
      by_cases hpre : (pat ++ ['(']) <+: (c :: rest)
      · rw [if_pos hpre] at hp
        cases hsp : splitFirst ')' ((c :: rest).drop (pat.length + 1)) with
        | none => rw [hsp] at hp; cases hp
        | some q =>
          rw [hsp] at hp
          obtain ⟨t, ht⟩ := hpre
          have hdrop : (c :: rest).drop (pat.length + 1) = t := by
            rw [← ht, show pat.length + 1 = (pat ++ ['(']).length by simp,
              List.drop_left]
          have hsplit := splitFirst_eq_append hsp
          rw [hdrop] at hsplit
          have htext : (c :: rest)
              = (pat ++ '(' :: q.1 ++ [')']) ++ q.2 := by
            rw [← ht, hsplit]
            simp
          rcases List.mem_cons.mp hp with rfl | htl
          · refine ⟨0, by omega, ?_⟩
            rw [List.drop_zero, htext]
            exact ⟨q.2, rfl⟩
          · obtain ⟨k', hk', hocc⟩ := ih q.2 _ p htl
            refine ⟨pat.length + 1 + q.1.length + 1 + k', by omega, ?_⟩
            have hL : (pat ++ '(' :: q.1 ++ [')']).length
                = pat.length + 1 + q.1.length + 1 := by
              simp
              omega
            rw [show pat.length + 1 + q.1.length + 1 + k'
                = (pat ++ '(' :: q.1 ++ [')']).length + k' by omega]
            rw [htext, ← List.drop_drop, List.drop_left]
            exact hocc
      · rw [if_neg hpre] at hp
        obtain ⟨k', hk', hocc⟩ := ih rest (off + 1) p hp
        refine ⟨k' + 1, by omega, ?_⟩
        rw [List.drop_succ_cons]
        exact hocc

end ExtractionProofs

/-- `extract_tool_calls` is the per-pattern scans concatenated in the fixed
pattern order. -/
theorem extract_tool_calls_eq (resp : List Char) :
    extract_tool_calls resp =
      (scanCalls "create_ticket".data resp 0).map
        (fun pr => ⟨"create_ticket", parseArgs pr.2⟩) ++
      ((scanCalls "check_order_status".data resp 0).map
        (fun pr => ⟨"check_order_status", parseArgs pr.2⟩) ++
      (scanCalls "search_knowledge_base".data resp 0).map
        (fun pr => ⟨"search_knowledge_base", parseArgs pr.2⟩)) := by
  unfold extract_tool_calls toolNames
  rw [List.foldl_cons, List.foldl_cons, List.foldl_cons, List.foldl_nil]
  rw [List.nil_append, List.append_assoc]

/-- C7: tool-call extraction groups results by pattern in the fixed order
`create_ticket`, `check_order_status`, `search_knowledge_base` — every
extracted create-ticket call precedes every extracted check-order-status call
regardless of their position in the reply — and, within one pattern, matches
are reported at strictly increasing text positions (left-to-right scan), each
capture actually occurring at its reported position. -/
theorem claim_C7_extraction_order (resp : List Char) :
    ∃ a b c : List ToolCall,
      extract_tool_calls resp = a ++ b ++ c ∧
      (∀ tc ∈ a, tc.tool = "create_ticket") ∧
      (∀ tc ∈ b, tc.tool = "check_order_status") ∧
      (∀ tc ∈ c, tc.tool = "search_knowledge_base") ∧
      a = (scanCalls "create_ticket".data resp 0).map
        (fun pr => ⟨"create_ticket", parseArgs pr.2⟩) ∧
      b = (scanCalls "check_order_status".data resp 0).map
        (fun pr => ⟨"check_order_status", parseArgs pr.2⟩) ∧
      c = (scanCalls "search_knowledge_base".data resp 0).map
        (fun pr => ⟨"search_knowledge_base", parseArgs pr.2⟩) ∧
      ∀ pat : List Char,
        (scanCalls pat resp 0).Pairwise (fun x y => x.1 < y.1) ∧
        ∀ p ∈ scanCalls pat resp 0,
          (pat ++ '(' :: p.2 ++ [')']) <+: resp.drop p.1 := by
  refine ⟨_, _, _, ?_, ?_, ?_, ?_, rfl, rfl, rfl, ?_⟩
  · rw [extract_tool_calls_eq, List.append_assoc]
  · intro tc htc
    obtain ⟨pr, _, rfl⟩ := List.mem_map.mp htc
    rfl
  · intro tc htc
    obtain ⟨pr, _, rfl⟩ := List.mem_map.mp htc
    rfl
  · intro tc htc
    obtain ⟨pr, _, rfl⟩ := List.mem_map.mp htc
    rfl
  · intro pat
    refine ⟨scanCallsAux_pairwise pat _ resp 0, ?_⟩
    intro p hp
    obtain ⟨k, hk, hocc⟩ := scanCallsAux_sound pat _ resp 0 p hp
    rw [hk, Nat.zero_add]
    exact hocc

section OrchestratorProofs

/-- C1: with the language-model HTTP backend raising on every call, the
orchestrator does **not** return the greeting canned fallback for the user
message `"hello"` — it returns the raw error string that
`OllamaClient.chat` produced, because `chat` swallows the exception and the
orchestrator's `except`-driven fallback branch never fires. The second
conjunct shows the canned greeting the claim expects is exactly what
`generate_fallback_response` would have produced. -/
theorem claim_C1_fallback_unreachable :
    (generate_response
      ⟨20, 3600, 3, 0, fun _ => [], fun _ _ => .exn "boom", fun _ => ""⟩
      VectorStore.empty SessionMgr.empty "s1" "hello").2
      = "Error: Unable to chat - boom" ∧
    generate_fallback_response "hello" ""
      = "Hello! I\x27m your AI support assistant. How can I help you today?" ∧
    (generate_response
      ⟨20, 3600, 3, 0, fun _ => [], fun _ _ => .exn "boom", fun _ => ""⟩
      VectorStore.empty SessionMgr.empty "s1" "hello").2
      ≠ generate_fallback_response "hello" "" := by
  refine ⟨by decide, by decide, by decide⟩

end OrchestratorProofs
